import Mathlib

/-!
Verification development for the iperf3-tracker repository.

The frontend TypeScript sources (services/api.ts, components/*.tsx) and the
SQL migrations are embedded directly.  The Python backend service layer
(probe execution, trace building, geolocation interpolation, the active-run
registry) is not part of the available sources; those parts are modelled
from the specification, as indicated on each definition.
-/

namespace IperfTracker

/-! ## Shared embedding of the browser environment (services/api.ts) -/

/-- Browser-side mutable state touched by the axios response interceptor:
`localStorage` (a keyed string store) and `window.location.href`. -/
structure BrowserState where
  storage : String → Option String
  locationHref : String

/-- An axios error object as seen by the response interceptor;
`responseStatus` is `error.response?.status` (`none` when the request got
no HTTP response at all). -/
structure AxiosError where
  responseStatus : Option Nat
  deriving DecidableEq

/-- `localStorage.removeItem(key)`. -/
def removeItem (st : String → Option String) (key : String) : String → Option String :=
  fun k => if k = key then none else st k

/-- The rejection handler installed by `api.interceptors.response.use` in
services/api.ts: on a 401 response it removes the `token` and `user` keys
from localStorage and navigates to `/login`; in every case it returns the
rejected error unchanged (`Promise.reject(error)`). -/
def responseErrorInterceptor (b : BrowserState) (e : AxiosError) :
    BrowserState × AxiosError :=
  if e.responseStatus = some 401 then
    (⟨removeItem (removeItem b.storage "token") "user", "/login"⟩, e)
  else
    (b, e)

/-! ## Frontend private-IP classification (NetworkTopology's isPrivateIP) -/

/-- `ip.split('.')` on a string modelled as a character list. -/
def splitOnDot : List Char → List (List Char)
  | [] => [[]]
  | c :: cs =>
    if c = '.' then [] :: splitOnDot cs
    else
      match splitOnDot cs with
      | [] => [[c]]
      | p :: ps => (c :: p) :: ps

/-- Numeric value of a decimal digit character. -/
def digitVal (c : Char) : Nat := c.toNat - 48

/-- JavaScript `parseInt` restricted to the dotted-quad fragments the
component feeds it: parses the leading run of decimal digits, `none`
standing for `NaN` when there is no digit. -/
def jsParseInt (s : List Char) : Option Nat :=
  let ds := s.takeWhile Char.isDigit
  if ds.isEmpty then none
  else some (ds.foldl (fun a c => 10 * a + digitVal c) 0)

/-- `isPrivateIP` from the NetworkTopology component: splits on `'.'`,
requires exactly 4 parts, then tests the first octet against 10, the
first/second pair against 172.16–31 and 192.168.  A `NaN` octet
(`jsParseInt = none`) fails every comparison, yielding `false`. -/
def isPrivateIP (ip : List Char) : Bool :=
  let parts := splitOnDot ip
  if parts.length ≠ 4 then false
  else
    match jsParseInt (parts.getD 0 []), jsParseInt (parts.getD 1 []) with
    | some firstOctet, secondOctet =>
      if firstOctet = 10 then true
      else
        match secondOctet with
        | some sec =>
          if firstOctet = 172 ∧ 16 ≤ sec ∧ sec ≤ 31 then true
          else if firstOctet = 192 ∧ sec = 168 then true
          else false
        | none => false
    | none, _ => false

end IperfTracker

namespace IperfTracker

/-- An example browser state: both keys stored, somewhere else on site. -/
def exBrowser : BrowserState :=
  ⟨fun _ => some "v", "/dashboard"⟩

/-- An error carrying an HTTP 401 response. -/
def ex401 : AxiosError := ⟨some 401⟩

/-- An error carrying an HTTP 500 response. -/
def ex500 : AxiosError := ⟨some 500⟩

end IperfTracker

namespace IperfTracker

/-- C10: a 401 response clears the stored token and user and redirects to
/login while the rejection is propagated unchanged; any other status
leaves the browser state untouched (and still propagates the error). -/
theorem interceptor_401_clears_auth (b : BrowserState) (e : AxiosError) :
    (responseErrorInterceptor b e).2 = e ∧
    (e.responseStatus = some 401 →
      (responseErrorInterceptor b e).1.storage "token" = none ∧
      (responseErrorInterceptor b e).1.storage "user" = none ∧
      (responseErrorInterceptor b e).1.locationHref = "/login") ∧
    (e.responseStatus ≠ some 401 →
      (responseErrorInterceptor b e).1 = b) := by
  unfold responseErrorInterceptor
  by_cases h : e.responseStatus = some 401
  · simp [h, removeItem]
  · simp [h]

/-- Witness for C10: the 401 branch evaluated on a concrete browser state,
plus the untouched-state branch on a 500. -/
theorem interceptor_401_clears_auth_witness :
    ((responseErrorInterceptor exBrowser ex401).1.storage "token" = none ∧
      (responseErrorInterceptor exBrowser ex401).1.storage "user" = none ∧
      (responseErrorInterceptor exBrowser ex401).1.locationHref = "/login") ∧
    (responseErrorInterceptor exBrowser ex500).1 = exBrowser :=
  ⟨(interceptor_401_clears_auth exBrowser ex401).2.1 rfl,
   (interceptor_401_clears_auth exBrowser ex500).2.2 (by decide)⟩

end IperfTracker

namespace IperfTracker

/-- C6 (amended): any dotted-quad address whose first octet parses to 10,
or whose first two octets parse inside 172.16–172.31 or 192.168, is
classified private by the frontend check. -/
theorem isPrivateIP_true_on_private_ranges
    (ip p0 p1 p2 p3 : List Char) (a b : Nat)
    (hsplit : splitOnDot ip = [p0, p1, p2, p3])
    (ha : jsParseInt p0 = some a) (hb : jsParseInt p1 = some b)
    (hrange : a = 10 ∨ (a = 172 ∧ 16 ≤ b ∧ b ≤ 31) ∨ (a = 192 ∧ b = 168)) :
    isPrivateIP ip = true := by
  unfold isPrivateIP
  rw [hsplit]
  simp only [List.length_cons, List.length_nil, List.getD_cons_zero,
    List.getD_cons_succ]
  rw [ha, hb]
  rcases hrange with h10 | ⟨h172, hlo, hhi⟩ | ⟨h192, h168⟩
  · subst h10; simp
  · subst h172; simp [hlo, hhi]
  · subst h192; subst h168; simp

/-- Witness for C6: the address 10.0.0.1 is classified private. -/
theorem isPrivateIP_true_on_private_ranges_witness :
    isPrivateIP ['1', '0', '.', '0', '.', '0', '.', '1'] = true :=
  isPrivateIP_true_on_private_ranges ['1', '0', '.', '0', '.', '0', '.', '1']
    ['1', '0'] ['0'] ['0'] ['1'] 10 0 (by decide) (by decide) (by decide)
    (Or.inl rfl)

/-- C6 counterexample: the loopback address 127.0.0.1 lies in a reserved
range, yet the classification returns false, so the claim's
reserved-range clause fails on the code. -/
theorem isPrivateIP_false_on_loopback :
    isPrivateIP ['1', '2', '7', '.', '0', '.', '0', '.', '1'] = false := by
  decide

end IperfTracker

namespace IperfTracker

/-! ## Bandwidth run lifecycle (backend service, modelled from the spec) -/

/-- Run status as exposed by the live-status endpoint and the Test record
(frontend `TestStatus` enum in services/api.ts). -/
inductive RunStatus where
  | pending
  | running
  | completed
  | failed
  deriving DecidableEq

/-- Modelled from the spec: the BandwidthRunOrchestrator recomputes
`progress = min(100, 100 * elapsed / total_duration)` on every interim
interval report; the backend service computing it is not under src/. -/
def progressOf (elapsed totalDuration : ℚ) : ℚ :=
  min 100 (100 * elapsed / totalDuration)

/-- Modelled from the spec: the final BandwidthResult fields persisted on a
completed run (download/upload Mbps, bytes, jitter, loss, retransmits,
CPU); the backend service producing them is not under src/. -/
structure BandwidthFigures where
  downloadMbps : ℚ
  uploadMbps : Option ℚ
  bytesTransferred : Nat
  jitterMs : Option ℚ
  packetLossPercent : Option ℚ
  retransmits : Option Nat
  cpuPercent : Option ℚ

/-- The terminal record a run leaves behind: status plus either populated
result fields or an error message (shape of the frontend `Test` record). -/
structure TerminalRecord where
  status : RunStatus
  results : Option BandwidthFigures
  errorMessage : Option String

/-- How a run's probe phase ended: a parsed final report, or a fatal error
with a human-readable message. -/
inductive RunOutcome where
  | success (r : BandwidthFigures)
  | failure (msg : String)

/-- Modelled from the spec: on process exit the orchestrator either parses
the final report into a BandwidthResult (status `completed`) or marks the
run `failed` with a non-null error message; the backend service is not
under src/. -/
def finishRun : RunOutcome → TerminalRecord
  | .success r => ⟨.completed, some r, none⟩
  | .failure m => ⟨.failed, none, some m⟩

end IperfTracker

namespace IperfTracker

/-- C3: progress lies in [0, 100] and, as elapsed time grows while the run
is in progress, the recomputed progress value never decreases. -/
theorem progress_bounded_and_monotone (t e₁ e₂ : ℚ)
    (ht : 0 < t) (he : 0 ≤ e₁) (hee : e₁ ≤ e₂) :
    0 ≤ progressOf e₁ t ∧ progressOf e₁ t ≤ 100 ∧
      progressOf e₁ t ≤ progressOf e₂ t := by
  refine ⟨?_, min_le_left _ _, ?_⟩
  · exact le_min (by norm_num)
      (div_nonneg (mul_nonneg (by norm_num) he) ht.le)
  · exact min_le_min le_rfl
      ((div_le_div_iff_of_pos_right ht).2 (by nlinarith))

/-- Witness for C3: a concrete 10-second run observed at 2 s then 5 s. -/
theorem progress_bounded_and_monotone_witness :
    0 ≤ progressOf 2 10 ∧ progressOf 2 10 ≤ 100 ∧
      progressOf 2 10 ≤ progressOf 5 10 :=
  progress_bounded_and_monotone 10 2 5 (by norm_num) (by norm_num)
    (by norm_num)

/-- C4: every terminal record carries exactly one of populated results
(status `completed`, no error message) or a non-null error message
(status `failed`, no results); the two cases are mutually exclusive. -/
theorem terminal_record_exclusive (o : RunOutcome) :
    ((finishRun o).status = .completed ∨ (finishRun o).status = .failed) ∧
    ((finishRun o).status = .completed ↔
      (finishRun o).results.isSome = true ∧ (finishRun o).errorMessage = none) ∧
    ((finishRun o).status = .failed ↔
      (finishRun o).errorMessage.isSome = true ∧ (finishRun o).results = none) := by
  cases o <;> simp [finishRun]

end IperfTracker

namespace IperfTracker

/-! ## Path trace building (backend service, modelled from the spec) -/

/-- One hop record as persisted in the `trace_hops` table (migration in
the SQL sources): hop number, responding IP (abstracted to a numeric
identity, null when unresponsive) and the responded flag. -/
structure BHop where
  hopNumber : Nat
  ipAddress : Option Nat
  responded : Bool
  deriving DecidableEq

/-- A persisted trace run, shape of the `traces` table row plus its
ordered hop list (frontend `Trace` record). -/
structure BTrace where
  destinationIp : Nat
  totalHops : Nat
  completed : Bool
  errorMessage : Option String
  hops : List BHop
  deriving DecidableEq

/-- Modelled from the spec (§4.3): probe each hop distance from `ttl`
while `fuel` distances remain, one hop per distance with
`hop_number = ttl`; stop early when the resolved IP equals the
destination.  An unresponsive distance still appends a hop with
`responded = false`.  The backend trace service is not under src/. -/
def traceLoop (destIp : Nat) (respond : Nat → Option Nat) :
    Nat → Nat → List BHop
  | _, 0 => []
  | ttl, fuel + 1 =>
    match respond ttl with
    | some hopIp =>
      if hopIp = destIp then [⟨ttl, some hopIp, true⟩]
      else ⟨ttl, some hopIp, true⟩ :: traceLoop destIp respond (ttl + 1) fuel
    | none => ⟨ttl, none, false⟩ :: traceLoop destIp respond (ttl + 1) fuel

/-- Modelled from the spec (§4.3): a trace run probes distances
1..max_hops and is marked completed in every termination case
(destination reached, max hops exhausted, or silence throughout), with
`total_hops` the number of recorded hops and no error message. -/
def runTrace (destIp : Nat) (maxHops : Nat) (respond : Nat → Option Nat) :
    BTrace :=
  let hops := traceLoop destIp respond 1 maxHops
  ⟨destIp, hops.length, true, none, hops⟩

/-- The hop numbers produced by the loop starting at `ttl` form the
contiguous range `[ttl, ttl + length)`. -/
theorem traceLoop_hopNumbers (destIp : Nat) (respond : Nat → Option Nat) :
    ∀ fuel ttl, (traceLoop destIp respond ttl fuel).map BHop.hopNumber =
      List.range' ttl (traceLoop destIp respond ttl fuel).length := by
  intro fuel
  induction fuel with
  | zero => intro ttl; simp [traceLoop]
  | succ n ih =>
    intro ttl
    unfold traceLoop
    cases h : respond ttl with
    | some hopIp =>
      by_cases hd : hopIp = destIp
      · simp [hd, List.range']
      · simp [hd, ih (ttl + 1), List.range']
    | none => simp [ih (ttl + 1), List.range']

end IperfTracker

namespace IperfTracker

/-- C2: for every persisted TraceRun the hop numbers of its ordered hop
list are exactly the contiguous sequence 1, 2, ..., total_hops, with no
gaps and no repeats. -/
theorem trace_hop_numbers_contiguous (destIp maxHops : Nat)
    (respond : Nat → Option Nat) :
    (runTrace destIp maxHops respond).hops.map BHop.hopNumber =
      List.range' 1 (runTrace destIp maxHops respond).totalHops := by
  simpa [runTrace] using traceLoop_hopNumbers destIp respond maxHops 1

end IperfTracker

namespace IperfTracker

/-- With a destination that never responds, the loop records one
unresponsive hop per probed distance. -/
theorem traceLoop_silent (destIp : Nat) (respond : Nat → Option Nat)
    (hnone : ∀ ttl, respond ttl = none) :
    ∀ fuel ttl, (traceLoop destIp respond ttl fuel).length = fuel ∧
      ∀ h ∈ traceLoop destIp respond ttl fuel, h.responded = false := by
  intro fuel
  induction fuel with
  | zero => intro ttl; simp [traceLoop]
  | succ n ih =>
    intro ttl
    unfold traceLoop
    rw [hnone ttl]
    refine ⟨by simp [(ih (ttl + 1)).1], ?_⟩
    intro h hmem
    rcases List.mem_cons.1 hmem with hh | hh
    · rw [hh]
    · exact (ih (ttl + 1)).2 h hh

end IperfTracker

namespace IperfTracker

/-- C5: a trace whose destination never responds at any distance still
completes: `completed = true`, `total_hops` equals the requested
`max_hops`, every hop has `responded = false`, and the error message is
null. -/
theorem trace_unreachable_completes (destIp maxHops : Nat)
    (respond : Nat → Option Nat) (hnone : ∀ ttl, respond ttl = none) :
    (runTrace destIp maxHops respond).completed = true ∧
    (runTrace destIp maxHops respond).totalHops = maxHops ∧
    (∀ h ∈ (runTrace destIp maxHops respond).hops, h.responded = false) ∧
    (runTrace destIp maxHops respond).errorMessage = none := by
  obtain ⟨hlen, hresp⟩ := traceLoop_silent destIp respond hnone maxHops 1
  exact ⟨rfl, by simpa [runTrace] using hlen, by simpa [runTrace] using hresp,
    rfl⟩

/-- Witness for C5: the reference request with `max_hops = 30` against a
destination that never responds. -/
theorem trace_unreachable_completes_witness :
    (runTrace 0 30 (fun _ => none)).completed = true ∧
    (runTrace 0 30 (fun _ => none)).totalHops = 30 ∧
    (∀ h ∈ (runTrace 0 30 (fun _ => none)).hops, h.responded = false) ∧
    (runTrace 0 30 (fun _ => none)).errorMessage = none :=
  trace_unreachable_completes 0 30 (fun _ => none) (fun _ => rfl)

end IperfTracker

namespace IperfTracker

/-! ## Active-run registry grace window (backend, modelled from the spec) -/

/-- A live snapshot kept in the active-run registry: its current status
and, once the run is terminal, the time (in seconds) at which it reached
that state. -/
structure LiveSnapshot where
  status : RunStatus
  finishedAt : Option Nat
  deriving DecidableEq

/-- A status is terminal when it is `completed` or `failed`. -/
def RunStatus.isTerminal : RunStatus → Bool
  | .completed => true
  | .failed => true
  | _ => false

/-- Modelled from the spec (§4.2): the grace window for which a terminal
snapshot stays visible in the registry, default ~10 seconds. -/
def graceWindowSeconds : Nat := 10

/-- Modelled from the spec: the eviction pass over the active-run
registry at time `now`.  A snapshot that reached a terminal state at
`t` is kept while `now ≤ t + graceWindowSeconds` and removed afterwards;
non-terminal snapshots are never evicted.  The backend registry is not
under src/. -/
def evictAfterGrace (reg : Nat → Option LiveSnapshot) (now : Nat) :
    Nat → Option LiveSnapshot :=
  fun runId =>
    match reg runId with
    | some s =>
      match s.finishedAt with
      | some t =>
        if s.status.isTerminal ∧ t + graceWindowSeconds < now then none
        else some s
      | none => some s
    | none => none

end IperfTracker

namespace IperfTracker

/-- C7: after a run reaches a terminal state at time `t`, a status query
within the 10-second grace window still returns the snapshot with its
final status, and the eviction pass removes it only once the window has
elapsed. -/
theorem grace_window_visibility (reg : Nat → Option LiveSnapshot)
    (runId t now : Nat) (s : LiveSnapshot)
    (hreg : reg runId = some s) (hfin : s.finishedAt = some t)
    (hterm : s.status.isTerminal = true) :
    (now ≤ t + graceWindowSeconds →
      evictAfterGrace reg now runId = some s) ∧
    (t + graceWindowSeconds < now →
      evictAfterGrace reg now runId = none) := by
  simp only [evictAfterGrace, hreg, hfin]
  constructor
  · intro hle
    rw [if_neg]
    intro hcon
    omega
  · intro hgt
    rw [if_pos ⟨hterm, hgt⟩]

/-- Witness for C7: a run that failed at second 100 is still visible at
second 110 and evicted at second 111. -/
theorem grace_window_visibility_witness :
    (evictAfterGrace
        (fun r => if r = 7 then some ⟨RunStatus.failed, some 100⟩ else none)
        110 7 = some ⟨RunStatus.failed, some 100⟩) ∧
    (evictAfterGrace
        (fun r => if r = 7 then some ⟨RunStatus.failed, some 100⟩ else none)
        111 7 = none) :=
  ⟨(grace_window_visibility _ 7 100 110 ⟨RunStatus.failed, some 100⟩
      (by decide) rfl rfl).1 (by decide),
   (grace_window_visibility _ 7 100 111 ⟨RunStatus.failed, some 100⟩
      (by decide) rfl rfl).2 (by decide)⟩

end IperfTracker

namespace IperfTracker

/-! ## LiveTestDisplay completion scheduling (components/LiveTestDisplay.tsx) -/

/-- The 5000 ms delay passed to `setTimeout(onComplete, 5000)`. -/
def onCompleteDelayMs : Nat := 5000

/-- An event on the browser's sequential event loop while a
LiveTestDisplay instance is mounted: either the 500 ms interval fires
and dispatches a `getTestLiveStatus` request, or a previously dispatched
request resolves (at `time`, being the `reqIndex`-th outstanding request
in dispatch order) and its handler observes the `is_running` flag. -/
inductive UiEvent where
  | tick (time : Nat)
  | resolve (time : Nat) (reqIndex : Nat) (isRunning : Bool)
  deriving DecidableEq

/-- The time at which an event's handler runs. -/
def UiEvent.time : UiEvent → Nat
  | .tick t => t
  | .resolve t _ _ => t

/-- Whether the event is a poll response observing `is_running = false`. -/
def UiEvent.observesNotRunning : UiEvent → Bool
  | .resolve _ _ isRunning => !isRunning
  | .tick _ => false

/-- Component state relevant to completion scheduling: the
`completionScheduled` React state, the copy of it captured by the
currently-installed effect closure, whether an interval is installed,
the captured flag held by each outstanding request's handler closure
(in dispatch order), and the absolute times at which scheduled
`setTimeout(onComplete, 5000)` callbacks will fire, in scheduling
order. -/
structure DisplayState where
  stateCompletionScheduled : Bool
  capturedCurrent : Bool
  intervalActive : Bool
  inFlight : List Bool
  scheduledFireTimes : List Nat
  deriving DecidableEq

/-- State right after mount: the effect ran with
`completionScheduled = false`, dispatched the initial fetch and
installed the interval. -/
def initialDisplay : DisplayState := ⟨false, false, true, [false], []⟩

/-- One event-loop step of LiveTestDisplay.tsx.  A tick dispatches a
request whose handler closes over the current effect's captured
`completionScheduled`.  A resolving request runs its handler: when it
observes `is_running = false`, the `onComplete` prop is present and its
own closure's captured flag is still false, it calls
`setTimeout(onComplete, 5000)`.  On the first such call the state flips,
so the effect re-runs: a new closure capturing `true`, an immediate
fetch and a fresh interval.  On a later such call — a stale request
dispatched before the flip, whose closure still holds `false` —
`setCompletionScheduled(true)` re-sets the same value so React bails
out, and the handler's `clearInterval` targets the already-cleared old
interval id, leaving the fresh interval running.  Failed fetches (which
only clear the interval and never schedule) are outside the modelled
traces. -/
def stepUi (hasOnComplete : Bool) (s : DisplayState) : UiEvent → DisplayState
  | .tick _ =>
    if s.intervalActive then
      { s with inFlight := s.inFlight ++ [s.capturedCurrent] }
    else s
  | .resolve t i isRunning =>
    match s.inFlight[i]? with
    | none => s
    | some captured =>
      let s1 := { s with inFlight := s.inFlight.eraseIdx i }
      if !isRunning && hasOnComplete && !captured then
        if s1.stateCompletionScheduled then
          { s1 with scheduledFireTimes :=
              s1.scheduledFireTimes ++ [t + onCompleteDelayMs] }
        else
          { stateCompletionScheduled := true
            capturedCurrent := true
            intervalActive := true
            inFlight := s1.inFlight ++ [true]
            scheduledFireTimes :=
              s1.scheduledFireTimes ++ [t + onCompleteDelayMs] }
      else s1

/-- The event-loop history of a mounted component with an `onComplete`
prop. -/
def runUi (events : List UiEvent) : DisplayState :=
  events.foldl (stepUi true) initialDisplay

/-- A trace is well formed from `s` when every resolve event names an
actually outstanding request. -/
def validFrom (s : DisplayState) : List UiEvent → Bool
  | [] => true
  | e :: rest =>
    (match e with
     | .tick _ => true
     | .resolve _ i _ => decide (i < s.inFlight.length)) &&
      validFrom (stepUi true s e) rest

/-- A handler only ever appends scheduled timeouts. -/
theorem stepUi_fires_append (s : DisplayState) (e : UiEvent) :
    ∃ tail, (stepUi true s e).scheduledFireTimes =
      s.scheduledFireTimes ++ tail := by
  cases e with
  | tick t =>
    cases hI : s.intervalActive with
    | false => exact ⟨[], by simp [stepUi, hI]⟩
    | true => exact ⟨[], by simp [stepUi, hI]⟩
  | resolve t i isRunning =>
    cases hg : s.inFlight[i]? with
    | none => exact ⟨[], by simp [stepUi, hg]⟩
    | some captured =>
      cases isRunning with
      | true => exact ⟨[], by simp [stepUi, hg]⟩
      | false =>
        cases captured with
        | true => exact ⟨[], by simp [stepUi, hg]⟩
        | false =>
          cases hs : s.stateCompletionScheduled with
          | true =>
            exact ⟨[t + onCompleteDelayMs], by simp [stepUi, hg, hs]⟩
          | false =>
            exact ⟨[t + onCompleteDelayMs], by simp [stepUi, hg, hs]⟩

/-- Scheduled timeouts accumulate across any run of events. -/
theorem foldl_stepUi_fires_append (events : List UiEvent) :
    ∀ s : DisplayState, ∃ tail,
      (events.foldl (stepUi true) s).scheduledFireTimes =
        s.scheduledFireTimes ++ tail := by
  induction events with
  | nil => intro s; exact ⟨[], by simp⟩
  | cons e rest ih =>
    intro s
    obtain ⟨t1, h1⟩ := stepUi_fires_append s e
    obtain ⟨t2, h2⟩ := ih (stepUi true s e)
    refine ⟨t1 ++ t2, ?_⟩
    rw [List.foldl_cons, h2, h1, List.append_assoc]

/-- Nothing has completed yet: the state flag is unset, every closure
(installed or in flight) captured `false`, and nothing is scheduled. -/
def QuietState (s : DisplayState) : Prop :=
  s.stateCompletionScheduled = false ∧ s.capturedCurrent = false ∧
    (∀ b ∈ s.inFlight, b = false) ∧ s.scheduledFireTimes = []

/-- The mount state is quiet. -/
theorem initialDisplay_quiet : QuietState initialDisplay := by
  refine ⟨rfl, rfl, ?_, rfl⟩
  intro b hb
  simpa [initialDisplay] using hb

/-- An event that does not observe `is_running = false` keeps the state
quiet. -/
theorem stepUi_quiet (s : DisplayState) (e : UiEvent)
    (hq : QuietState s) (he : e.observesNotRunning = false) :
    QuietState (stepUi true s e) := by
  obtain ⟨h1, h2, h3, h4⟩ := hq
  cases e with
  | tick t =>
    cases hI : s.intervalActive with
    | false => exact ⟨by simp [stepUi, hI, h1], by simp [stepUi, hI, h2],
        by simpa [stepUi, hI] using h3, by simp [stepUi, hI, h4]⟩
    | true =>
      refine ⟨by simp [stepUi, hI, h1], by simp [stepUi, hI, h2], ?_,
        by simp [stepUi, hI, h4]⟩
      intro b hb
      simp [stepUi, hI, h2] at hb
      rcases hb with hb | hb
      · exact h3 b hb
      · exact hb
  | resolve t i isRunning =>
    have hr : isRunning = true := by
      simpa [UiEvent.observesNotRunning] using he
    subst hr
    cases hg : s.inFlight[i]? with
    | none => exact ⟨by simp [stepUi, hg, h1], by simp [stepUi, hg, h2],
        by simpa [stepUi, hg] using h3, by simp [stepUi, hg, h4]⟩
    | some captured =>
      refine ⟨by simp [stepUi, hg, h1], by simp [stepUi, hg, h2], ?_,
        by simp [stepUi, hg, h4]⟩
      intro b hb
      simp [stepUi, hg] at hb
      exact h3 b ((List.eraseIdx_sublist _ _).subset hb)

/-- A run of events none of which observes `is_running = false` keeps
the state quiet. -/
theorem foldl_stepUi_quiet (events : List UiEvent) :
    ∀ s, QuietState s → (∀ e ∈ events, e.observesNotRunning = false) →
      QuietState (events.foldl (stepUi true) s) := by
  induction events with
  | nil => intro s hs _; simpa using hs
  | cons e rest ih =>
    intro s hs hall
    rw [List.foldl_cons]
    exact ih (stepUi true s e)
      (stepUi_quiet s e hs (hall e (List.mem_cons_self _ _)))
      (fun e2 he2 => hall e2 (List.mem_cons_of_mem _ he2))

/-- Well-formedness passes to the suffix after running a prefix. -/
theorem validFrom_drop (xs : List UiEvent) :
    ∀ (ys : List UiEvent) (s : DisplayState),
      validFrom s (xs ++ ys) = true →
      validFrom (xs.foldl (stepUi true) s) ys = true := by
  induction xs with
  | nil => intro ys s h; simpa using h
  | cons x rest ih =>
    intro ys s h
    rw [List.cons_append] at h
    unfold validFrom at h
    rw [Bool.and_eq_true] at h
    rw [List.foldl_cons]
    exact ih ys (stepUi true s x) h.2

/-- From a quiet state, the first valid poll observing
`is_running = false` schedules exactly one timeout, 5000 ms later. -/
theorem stepUi_first_false (s : DisplayState) (e : UiEvent)
    (rest : List UiEvent) (hq : QuietState s)
    (hv : validFrom s (e :: rest) = true)
    (he : e.observesNotRunning = true) :
    (stepUi true s e).scheduledFireTimes =
      [e.time + onCompleteDelayMs] := by
  obtain ⟨h1, h2, h3, h4⟩ := hq
  cases e with
  | tick t => simp [UiEvent.observesNotRunning] at he
  | resolve t i isRunning =>
    have hr : isRunning = false := by
      simpa [UiEvent.observesNotRunning] using he
    subst hr
    unfold validFrom at hv
    rw [Bool.and_eq_true] at hv
    have hi : i < s.inFlight.length := by simpa using hv.1
    have hg : s.inFlight[i]? = some (s.inFlight[i]) :=
      List.getElem?_eq_getElem hi
    have hcap : s.inFlight[i] = false :=
      h3 _ (List.getElem_mem hi)
    rw [hcap] at hg
    simp [stepUi, hg, h1, h4, UiEvent.time]

end IperfTracker

namespace IperfTracker

/-- C9 counterexample: on the valid trace where a 500 ms tick dispatches
a second poll before the first one resolves, both polls observe
`is_running = false`; the second still holds the old closure's
`completionScheduled = false` (clearInterval stops only future ticks,
and the stale closure never sees the state update), so
`setTimeout(onComplete, 5000)` is scheduled twice — at 5600 and again at
5700 — refuting the at-most-once claim. -/
theorem onComplete_scheduled_twice :
    validFrom initialDisplay
        [UiEvent.tick 500, UiEvent.resolve 600 0 false,
          UiEvent.resolve 700 0 false] = true ∧
    (runUi [UiEvent.tick 500, UiEvent.resolve 600 0 false,
        UiEvent.resolve 700 0 false]).scheduledFireTimes = [5600, 5700] := by
  exact ⟨rfl, rfl⟩

/-- C9 (amended): if no poll observes `is_running = false`, the
`onComplete` timeout is never scheduled; on every well-formed trace the
first timeout is scheduled exactly 5000 ms after the first poll that
observes `is_running = false`; and a poll whose request was dispatched
under a closure that captured `completionScheduled = true` (any closure
installed after the first scheduling, including the effect re-run) never
schedules another timeout.  At-most-once is not guaranteed: polls
already in flight at the first scheduling may schedule again. -/
theorem onComplete_schedule_characterized :
    (∀ events : List UiEvent,
      (∀ e ∈ events, e.observesNotRunning = false) →
      (runUi events).scheduledFireTimes = []) ∧
    (∀ (pre : List UiEvent) (e : UiEvent) (post : List UiEvent),
      validFrom initialDisplay (pre ++ e :: post) = true →
      (∀ e2 ∈ pre, e2.observesNotRunning = false) →
      e.observesNotRunning = true →
      (runUi (pre ++ e :: post)).scheduledFireTimes.head? =
        some (e.time + onCompleteDelayMs)) ∧
    (∀ (s : DisplayState) (t i : Nat) (isRunning : Bool),
      s.inFlight[i]? = some true →
      (stepUi true s (.resolve t i isRunning)).scheduledFireTimes =
        s.scheduledFireTimes) := by
  refine ⟨?_, ?_, ?_⟩
  · intro events hall
    exact (foldl_stepUi_quiet events initialDisplay initialDisplay_quiet
      hall).2.2.2
  · intro pre e post hv hpre he
    have hs1 : QuietState (pre.foldl (stepUi true) initialDisplay) :=
      foldl_stepUi_quiet pre initialDisplay initialDisplay_quiet hpre
    have hv1 : validFrom (pre.foldl (stepUi true) initialDisplay)
        (e :: post) = true :=
      validFrom_drop pre (e :: post) initialDisplay hv
    have hstep := stepUi_first_false _ e post hs1 hv1 he
    obtain ⟨tail, htail⟩ := foldl_stepUi_fires_append post
      (stepUi true (pre.foldl (stepUi true) initialDisplay) e)
    have hrun : runUi (pre ++ e :: post) =
        post.foldl (stepUi true)
          (stepUi true (pre.foldl (stepUi true) initialDisplay) e) := by
      simp [runUi, List.foldl_append]
    rw [hrun, htail, hstep]
    simp
  · intro s t i isRunning hg
    simp [stepUi, hg]

/-- Witness for C9's amended theorem: on the concrete trace with one
quiet tick and then a poll observing `is_running = false` at 600 ms, the
first timeout fires at 600 + 5000; and a concrete stale-free state with
an in-flight request whose closure captured `true` schedules nothing. -/
theorem onComplete_schedule_characterized_witness :
    (runUi [UiEvent.tick 500,
        UiEvent.resolve 600 0 false]).scheduledFireTimes.head? =
      some (600 + onCompleteDelayMs) ∧
    (stepUi true ⟨true, true, true, [true], [5600]⟩
        (UiEvent.resolve 700 0 true)).scheduledFireTimes = [5600] :=
  ⟨onComplete_schedule_characterized.2.1 [UiEvent.tick 500]
      (UiEvent.resolve 600 0 false) [] (by decide) (by decide) rfl,
    onComplete_schedule_characterized.2.2 ⟨true, true, true, [true], [5600]⟩
      700 0 true rfl⟩

end IperfTracker

namespace IperfTracker

/-! ## RunRequest validation (caller layer, modelled from the spec) -/

/-- Protocol selector of a bandwidth run request. -/
inductive ProtocolKind where
  | tcp
  | udp
  deriving DecidableEq

/-- Direction selector of a bandwidth run request. -/
inductive DirectionKind where
  | download
  | upload
  | bidirectional
  deriving DecidableEq

/-- A bandwidth RunRequest as submitted to the core. -/
structure RunRequest where
  protocol : ProtocolKind
  direction : DirectionKind
  durationSeconds : Nat
  parallelStreams : Nat
  deriving DecidableEq

/-- Modelled from the spec (§6): the caller-side validation applied to a
RunRequest before it reaches the core — duration 1–300 s, parallel
streams 1–128.  The validating caller layer (the API schema in front of
the engine) is not under src/; the frontend forms only declare these
bounds as input min/max attributes. -/
def validRunRequest (r : RunRequest) : Bool :=
  decide (1 ≤ r.durationSeconds) && decide (r.durationSeconds ≤ 300) &&
    decide (1 ≤ r.parallelStreams) && decide (r.parallelStreams ≤ 128)

/-- Modelled from the spec (§6): submission hands the request to the core
only when it passes validation; otherwise nothing is sent. -/
def submitRunRequest (r : RunRequest) : Option RunRequest :=
  if validRunRequest r then some r else none

end IperfTracker

namespace IperfTracker

/-- C8: every RunRequest that reaches the core has duration between 1 and
300 seconds and parallel stream count between 1 and 128, and is the
submitted request unchanged. -/
theorem submitted_request_within_bounds (r sent : RunRequest)
    (hsent : submitRunRequest r = some sent) :
    sent = r ∧ 1 ≤ sent.durationSeconds ∧ sent.durationSeconds ≤ 300 ∧
      1 ≤ sent.parallelStreams ∧ sent.parallelStreams ≤ 128 := by
  unfold submitRunRequest at hsent
  by_cases hv : validRunRequest r = true
  · obtain rfl : r = sent := by
      rw [if_pos hv] at hsent
      exact Option.some.inj hsent
    have hb := hv
    unfold validRunRequest at hb
    simp only [Bool.and_eq_true, decide_eq_true_eq] at hb
    exact ⟨rfl, hb.1.1.1, hb.1.1.2, hb.1.2, hb.2⟩
  · rw [if_neg hv] at hsent
    cases hsent

/-- Witness for C8: a TCP download request of 10 seconds with 4 parallel
streams is submitted and satisfies the bounds. -/
theorem submitted_request_within_bounds_witness :
    (⟨.tcp, .download, 10, 4⟩ : RunRequest) = ⟨.tcp, .download, 10, 4⟩ ∧
    1 ≤ (⟨.tcp, .download, 10, 4⟩ : RunRequest).durationSeconds ∧
    (⟨.tcp, .download, 10, 4⟩ : RunRequest).durationSeconds ≤ 300 ∧
    1 ≤ (⟨.tcp, .download, 10, 4⟩ : RunRequest).parallelStreams ∧
    (⟨.tcp, .download, 10, 4⟩ : RunRequest).parallelStreams ≤ 128 :=
  submitted_request_within_bounds ⟨.tcp, .download, 10, 4⟩
    ⟨.tcp, .download, 10, 4⟩ (by decide)

end IperfTracker

namespace IperfTracker

/-! ## Geolocation interpolation (GeoResolver, modelled from the spec) -/

/-- A hop as seen by the interpolation pass: its 1-based hop number,
nullable coordinates and the interpolated flag (frontend `TraceHop`
shape; the flag is surfaced to the map components). -/
structure GeoHop where
  hopNumber : Nat
  latitude : Option ℚ
  longitude : Option ℚ
  interpolated : Bool
  deriving DecidableEq

/-- A hop has measured (or already filled) coordinates when both latitude
and longitude are non-null. -/
def hasCoords (h : GeoHop) : Bool := h.latitude.isSome && h.longitude.isSome

/-- Modelled from the spec (§4.4): the nearest preceding hop (largest hop
number below `n`) that has coordinates. -/
def prevAnchor : List GeoHop → Nat → Option GeoHop
  | [], _ => none
  | h :: t, n =>
    if hasCoords h && decide (h.hopNumber < n) then
      match prevAnchor t n with
      | none => some h
      | some a => if h.hopNumber < a.hopNumber then some a else some h
    else prevAnchor t n

/-- Modelled from the spec (§4.4): the nearest following hop (smallest hop
number above `n`) that has coordinates. -/
def nextAnchor : List GeoHop → Nat → Option GeoHop
  | [], _ => none
  | h :: t, n =>
    if hasCoords h && decide (n < h.hopNumber) then
      match nextAnchor t n with
      | none => some h
      | some a => if a.hopNumber < h.hopNumber then some a else some h
    else nextAnchor t n

/-- Linear interpolation between `x` and `y` at fraction `f`. -/
def lerpQ (x y f : ℚ) : ℚ := x + f * (y - x)

/-- Modelled from the spec (§4.4): the per-hop interpolation step.  A hop
that already has coordinates is untouched.  Otherwise, when both a
preceding and a following anchor exist, `fraction = (index - i) / (j - i)`
and latitude and longitude are interpolated independently and the hop is
marked `interpolated = true`; with at most one anchor the hop keeps null
coordinates and `interpolated = false`.  The backend GeoResolver is not
under src/. -/
def interpHop (hs : List GeoHop) (h : GeoHop) : GeoHop :=
  if hasCoords h then h
  else
    match prevAnchor hs h.hopNumber, nextAnchor hs h.hopNumber with
    | some a, some b =>
      match a.latitude, a.longitude, b.latitude, b.longitude with
      | some alat, some alon, some blat, some blon =>
        let fraction : ℚ := ((h.hopNumber - a.hopNumber : ℕ) : ℚ) /
          ((b.hopNumber - a.hopNumber : ℕ) : ℚ)
        { h with
          latitude := some (lerpQ alat blat fraction)
          longitude := some (lerpQ alon blon fraction)
          interpolated := true }
      | _, _, _, _ => h
    | _, _ => h

/-- Modelled from the spec (§4.4): the interpolation pass, applied once
after all hops of a trace are known. -/
def interpolatePass (hs : List GeoHop) : List GeoHop :=
  hs.map (interpHop hs)

/-- `a` is the nearest preceding anchor of hop number `n` in `hs`:
it belongs to the trace, has coordinates, precedes `n`, and no other
coordinate-bearing hop preceding `n` is closer. -/
def IsNearestPrevAnchor (hs : List GeoHop) (n : Nat) (a : GeoHop) : Prop :=
  a ∈ hs ∧ hasCoords a = true ∧ a.hopNumber < n ∧
    ∀ h ∈ hs, hasCoords h = true → h.hopNumber < n → h.hopNumber ≤ a.hopNumber

/-- `b` is the nearest following anchor of hop number `n` in `hs`. -/
def IsNearestNextAnchor (hs : List GeoHop) (n : Nat) (b : GeoHop) : Prop :=
  b ∈ hs ∧ hasCoords b = true ∧ n < b.hopNumber ∧
    ∀ h ∈ hs, hasCoords h = true → n < h.hopNumber → b.hopNumber ≤ h.hopNumber

end IperfTracker

namespace IperfTracker

/-- When `prevAnchor` finds nothing, no hop with coordinates precedes `n`. -/
theorem prevAnchor_eq_none (hs : List GeoHop) (n : Nat) :
    prevAnchor hs n = none →
      ∀ h ∈ hs, ¬(hasCoords h = true ∧ h.hopNumber < n) := by
  induction hs with
  | nil => intro _ h hm; cases hm
  | cons x t ih =>
    intro hnone h hm
    unfold prevAnchor at hnone
    by_cases hg : (hasCoords x && decide (x.hopNumber < n)) = true
    · exfalso
      rw [if_pos hg] at hnone
      cases hrest : prevAnchor t n with
      | none => rw [hrest] at hnone; cases hnone
      | some a =>
        rw [hrest] at hnone
        dsimp only at hnone
        by_cases hcmp : x.hopNumber < a.hopNumber
        · rw [if_pos hcmp] at hnone; cases hnone
        · rw [if_neg hcmp] at hnone; cases hnone
    · rw [if_neg hg] at hnone
      rcases List.mem_cons.1 hm with rfl | hmt
      · rintro ⟨hc, hlt⟩
        exact hg (by simp [hc, hlt])
      · exact ih hnone h hmt

/-- When `nextAnchor` finds nothing, no hop with coordinates follows `n`. -/
theorem nextAnchor_eq_none (hs : List GeoHop) (n : Nat) :
    nextAnchor hs n = none →
      ∀ h ∈ hs, ¬(hasCoords h = true ∧ n < h.hopNumber) := by
  induction hs with
  | nil => intro _ h hm; cases hm
  | cons x t ih =>
    intro hnone h hm
    unfold nextAnchor at hnone
    by_cases hg : (hasCoords x && decide (n < x.hopNumber)) = true
    · exfalso
      rw [if_pos hg] at hnone
      cases hrest : nextAnchor t n with
      | none => rw [hrest] at hnone; cases hnone
      | some a =>
        rw [hrest] at hnone
        dsimp only at hnone
        by_cases hcmp : a.hopNumber < x.hopNumber
        · rw [if_pos hcmp] at hnone; cases hnone
        · rw [if_neg hcmp] at hnone; cases hnone
    · rw [if_neg hg] at hnone
      rcases List.mem_cons.1 hm with rfl | hmt
      · rintro ⟨hc, hlt⟩
        exact hg (by simp [hc, hlt])
      · exact ih hnone h hmt

/-- `prevAnchor` returns the nearest preceding coordinate-bearing hop. -/
theorem prevAnchor_nearest (hs : List GeoHop) (n : Nat) :
    ∀ a, prevAnchor hs n = some a → IsNearestPrevAnchor hs n a := by
  induction hs with
  | nil => intro a ha; cases ha
  | cons x t ih =>
    intro a ha
    unfold prevAnchor at ha
    by_cases hg : (hasCoords x && decide (x.hopNumber < n)) = true
    · have hgc : hasCoords x = true ∧ x.hopNumber < n := by
        simpa [Bool.and_eq_true, decide_eq_true_eq] using hg
      rw [if_pos hg] at ha
      cases hrest : prevAnchor t n with
      | none =>
        rw [hrest] at ha
        obtain rfl : x = a := Option.some.inj ha
        refine ⟨List.mem_cons_self _ _, hgc.1, hgc.2, ?_⟩
        intro h hm hc hlt
        rcases List.mem_cons.1 hm with rfl | hmt
        · exact le_rfl
        · exact absurd ⟨hc, hlt⟩ (prevAnchor_eq_none t n hrest h hmt)
      | some a0 =>
        rw [hrest] at ha
        dsimp only at ha
        have hnear := ih a0 hrest
        by_cases hcmp : x.hopNumber < a0.hopNumber
        · rw [if_pos hcmp] at ha
          obtain rfl : a0 = a := Option.some.inj ha
          refine ⟨List.mem_cons_of_mem _ hnear.1, hnear.2.1, hnear.2.2.1, ?_⟩
          intro h hm hc hlt
          rcases List.mem_cons.1 hm with rfl | hmt
          · exact le_of_lt hcmp
          · exact hnear.2.2.2 h hmt hc hlt
        · rw [if_neg hcmp] at ha
          obtain rfl : x = a := Option.some.inj ha
          refine ⟨List.mem_cons_self _ _, hgc.1, hgc.2, ?_⟩
          intro h hm hc hlt
          rcases List.mem_cons.1 hm with rfl | hmt
          · exact le_rfl
          · exact le_trans (hnear.2.2.2 h hmt hc hlt) (Nat.le_of_not_lt hcmp)
    · rw [if_neg hg] at ha
      have hnear := ih a ha
      refine ⟨List.mem_cons_of_mem _ hnear.1, hnear.2.1, hnear.2.2.1, ?_⟩
      intro h hm hc hlt
      rcases List.mem_cons.1 hm with rfl | hmt
      · exact absurd (by simp [hc, hlt]) hg
      · exact hnear.2.2.2 h hmt hc hlt

/-- `nextAnchor` returns the nearest following coordinate-bearing hop. -/
theorem nextAnchor_nearest (hs : List GeoHop) (n : Nat) :
    ∀ b, nextAnchor hs n = some b → IsNearestNextAnchor hs n b := by
  induction hs with
  | nil => intro b hb; cases hb
  | cons x t ih =>
    intro b hb
    unfold nextAnchor at hb
    by_cases hg : (hasCoords x && decide (n < x.hopNumber)) = true
    · have hgc : hasCoords x = true ∧ n < x.hopNumber := by
        simpa [Bool.and_eq_true, decide_eq_true_eq] using hg
      rw [if_pos hg] at hb
      cases hrest : nextAnchor t n with
      | none =>
        rw [hrest] at hb
        obtain rfl : x = b := Option.some.inj hb
        refine ⟨List.mem_cons_self _ _, hgc.1, hgc.2, ?_⟩
        intro h hm hc hlt
        rcases List.mem_cons.1 hm with rfl | hmt
        · exact le_rfl
        · exact absurd ⟨hc, hlt⟩ (nextAnchor_eq_none t n hrest h hmt)
      | some b0 =>
        rw [hrest] at hb
        dsimp only at hb
        have hnear := ih b0 hrest
        by_cases hcmp : b0.hopNumber < x.hopNumber
        · rw [if_pos hcmp] at hb
          obtain rfl : b0 = b := Option.some.inj hb
          refine ⟨List.mem_cons_of_mem _ hnear.1, hnear.2.1, hnear.2.2.1, ?_⟩
          intro h hm hc hlt
          rcases List.mem_cons.1 hm with rfl | hmt
          · exact le_of_lt hcmp
          · exact hnear.2.2.2 h hmt hc hlt
        · rw [if_neg hcmp] at hb
          obtain rfl : x = b := Option.some.inj hb
          refine ⟨List.mem_cons_self _ _, hgc.1, hgc.2, ?_⟩
          intro h hm hc hlt
          rcases List.mem_cons.1 hm with rfl | hmt
          · exact le_rfl
          · exact le_trans (Nat.le_of_not_lt hcmp) (hnear.2.2.2 h hmt hc hlt)
    · rw [if_neg hg] at hb
      have hnear := ih b hb
      refine ⟨List.mem_cons_of_mem _ hnear.1, hnear.2.1, hnear.2.2.1, ?_⟩
      intro h hm hc hlt
      rcases List.mem_cons.1 hm with rfl | hmt
      · exact absurd (by simp [hc, hlt]) hg
      · exact hnear.2.2.2 h hmt hc hlt

end IperfTracker

namespace IperfTracker

/-- Case analysis of the per-hop interpolation step: either the hop is
returned untouched, or both anchors exist with coordinates and the hop
gets the interpolated coordinates and flag. -/
theorem interpHop_spec (hs : List GeoHop) (h : GeoHop) :
    interpHop hs h = h ∨
    ∃ a b alat alon blat blon,
      prevAnchor hs h.hopNumber = some a ∧
      nextAnchor hs h.hopNumber = some b ∧
      a.latitude = some alat ∧ a.longitude = some alon ∧
      b.latitude = some blat ∧ b.longitude = some blon ∧
      interpHop hs h = { h with
        latitude := some (lerpQ alat blat
          (((h.hopNumber - a.hopNumber : ℕ) : ℚ) /
            ((b.hopNumber - a.hopNumber : ℕ) : ℚ)))
        longitude := some (lerpQ alon blon
          (((h.hopNumber - a.hopNumber : ℕ) : ℚ) /
            ((b.hopNumber - a.hopNumber : ℕ) : ℚ)))
        interpolated := true } := by
  by_cases hc : hasCoords h = true
  · left; simp [interpHop, hc]
  · cases hpa : prevAnchor hs h.hopNumber with
    | none => left; simp [interpHop, hc, hpa]
    | some a =>
      cases hpb : nextAnchor hs h.hopNumber with
      | none => left; simp [interpHop, hc, hpa, hpb]
      | some b =>
        cases hal : a.latitude with
        | none => left; simp [interpHop, hc, hpa, hpb, hal]
        | some alat =>
          cases halo : a.longitude with
          | none => left; simp [interpHop, hc, hpa, hpb, hal, halo]
          | some alon =>
            cases hbl : b.latitude with
            | none => left; simp [interpHop, hc, hpa, hpb, hal, halo, hbl]
            | some blat =>
              cases hblo : b.longitude with
              | none =>
                left; simp [interpHop, hc, hpa, hpb, hal, halo, hbl, hblo]
              | some blon =>
                right
                exact ⟨a, b, alat, alon, blat, blon, rfl, rfl, hal, halo,
                  hbl, hblo, by
                    simp [interpHop, hc, hpa, hpb, hal, halo, hbl, hblo]⟩

end IperfTracker

namespace IperfTracker

/-- C1: in the output of the interpolation pass over raw hops, every hop
flagged `interpolated = true` has non-null latitude and longitude equal
to the linear interpolation, at fraction
`(index - i) / (j - i)`, between the nearest preceding anchor `i` and
the nearest following anchor `j` that carry measured coordinates. -/
theorem interpolated_hop_is_lerp (hs : List GeoHop)
    (hraw : ∀ h ∈ hs, h.interpolated = false) :
    ∀ g ∈ interpolatePass hs, g.interpolated = true →
      ∃ a b alat alon blat blon,
        IsNearestPrevAnchor hs g.hopNumber a ∧
        IsNearestNextAnchor hs g.hopNumber b ∧
        a.latitude = some alat ∧ a.longitude = some alon ∧
        b.latitude = some blat ∧ b.longitude = some blon ∧
        g.latitude = some (lerpQ alat blat
          (((g.hopNumber - a.hopNumber : ℕ) : ℚ) /
            ((b.hopNumber - a.hopNumber : ℕ) : ℚ))) ∧
        g.longitude = some (lerpQ alon blon
          (((g.hopNumber - a.hopNumber : ℕ) : ℚ) /
            ((b.hopNumber - a.hopNumber : ℕ) : ℚ))) := by
  intro g hg hflag
  obtain ⟨h, hm, rfl⟩ := List.mem_map.1 (by simpa [interpolatePass] using hg)
  rcases interpHop_spec hs h with heq |
    ⟨a, b, alat, alon, blat, blon, hpa, hpb, hal, halo, hbl, hblo, heq⟩
  · rw [heq] at hflag
    rw [hraw h hm] at hflag
    cases hflag
  · rw [heq]
    exact ⟨a, b, alat, alon, blat, blon,
      prevAnchor_nearest hs h.hopNumber a hpa,
      nextAnchor_nearest hs h.hopNumber b hpb,
      hal, halo, hbl, hblo, rfl, rfl⟩

end IperfTracker

namespace IperfTracker

/-- The spec's worked example: hop 4 at (10, 10) and hop 6 at (20, 20)
measured, hop 5 unresolved. -/
def exHops : List GeoHop :=
  [⟨4, some 10, some 10, false⟩, ⟨5, none, none, false⟩,
    ⟨6, some 20, some 20, false⟩]

/-- Witness for C1: on the spec's example, hop 5 comes out as (15, 15)
with `interpolated = true`, and the general theorem applies to it. -/
theorem interpolated_hop_is_lerp_witness :
    interpolatePass exHops =
      [⟨4, some 10, some 10, false⟩, ⟨5, some 15, some 15, true⟩,
        ⟨6, some 20, some 20, false⟩] ∧
    (∃ a b alat alon blat blon,
      IsNearestPrevAnchor exHops 5 a ∧
      IsNearestNextAnchor exHops 5 b ∧
      a.latitude = some alat ∧ a.longitude = some alon ∧
      b.latitude = some blat ∧ b.longitude = some blon ∧
      (some 15 : Option ℚ) = some (lerpQ alat blat
        (((5 - a.hopNumber : ℕ) : ℚ) / ((b.hopNumber - a.hopNumber : ℕ) : ℚ))) ∧
      (some 15 : Option ℚ) = some (lerpQ alon blon
        (((5 - a.hopNumber : ℕ) : ℚ) / ((b.hopNumber - a.hopNumber : ℕ) : ℚ)))) := by
  have hpass : interpolatePass exHops =
      [⟨4, some 10, some 10, false⟩, ⟨5, some 15, some 15, true⟩,
        ⟨6, some 20, some 20, false⟩] := by
    norm_num [interpolatePass, exHops, interpHop, prevAnchor, nextAnchor,
      hasCoords, lerpQ]
  refine ⟨hpass, interpolated_hop_is_lerp exHops (by decide)
    ⟨5, some 15, some 15, true⟩ ?_ rfl⟩
  rw [hpass]
  simp

end IperfTracker
